import Mathlib

/-!
Verification of the scedar `scxplit/eda.py` core against its specification.

The Python source is shallowly embedded as executable Lean definitions:

* Python scalar values appearing in identifier/label collections become the
  inductive type `PyVal`; a Python argument that may be `None`, a non-list
  object, or a list becomes `PyArg`.
* `SampleFeatureMatrix.check_is_valid_sfids` and
  `SingleLabelClassifiedSamples.check_is_valid_labs` become `Except`-valued
  functions (an `Except.error` models a raised `ValueError`).
* `SampleDistanceMatrix.num_correct_dist_mat` acts on square matrices,
  embedded as functions `Fin n → Fin n → ℚ` (the repair steps only compare,
  clamp and copy entries, so exact rationals model the float entries
  faithfully for these claims).
* `SingleLabelClassifiedSamples` derived data (`_sid_lut` buckets,
  `_lab_lut` lookups, `lab_sorted_sids`, `cross_labs`) become list functions
  over an arbitrary linearly ordered identifier type, mirroring numpy's
  sorted `np.unique`, boolean-mask selection and `np.in1d` filtering.
-/

/-- Python runtime type of a value found in an id or label collection:
`int`, `str`, or some other type (distinct non-int non-str types are
distinguished by a tag). -/
inductive PyType
  | intT : PyType
  | strT : PyType
  | otherT : Nat → PyType
deriving DecidableEq

/-- Python scalar value in an id or label collection: an `int`, a `str`, or a
value of some other type (`tag` selects the type, `ident` the value). -/
inductive PyVal
  | intV : Int → PyVal
  | strV : String → PyVal
  | otherV : Nat → Nat → PyVal
deriving DecidableEq

/-- Python `type(v)` for a collection element. -/
def PyVal.ptype : PyVal → PyType
  | .intV _ => .intT
  | .strV _ => .strT
  | .otherV tag _ => .otherT tag

/-- A Python argument that is inspected with `is None` and `type(-) != list`:
either `None`, an object that is not a list, or a list of scalar values. -/
inductive PyArg
  | noneArg : PyArg
  | nonListArg : Nat → PyArg
  | listArg : List PyVal → PyArg
deriving DecidableEq

/-- All validation failures in the source raise `ValueError`. -/
inductive PyErr
  | valueError : PyErr
deriving DecidableEq

/-- Embeds `SampleFeatureMatrix.is_valid_sfid`: the element must be exactly of
type `str` or `int`. -/
def is_valid_sfid (v : PyVal) : Bool :=
  match v with
  | .intV _ => true
  | .strV _ => true
  | .otherV _ _ => false

/-- Modelled from the spec: `utils.is_uniq_np1darr` (module `scxplit/utils.py`,
not under `src/`) is the duplicate test used by `check_is_valid_sfids`; per the
spec an identifier set must contain "no duplicates", so the predicate holds
exactly when the collection is duplicate-free. -/
def is_uniq_np1darr (l : List PyVal) : Bool :=
  decide l.Nodup

/-- Embeds `SampleFeatureMatrix.check_is_valid_sfids`, preserving the order of
the checks in the source: `None`, non-list, empty, mixed types (Python
computes `len(set(map(type, sfids))) != 1`, embedded as deduplicating the list
of element types), first element not int/str, duplicates.  The two `assert`
statements on the 1-D numpy conversion always hold for a list of scalars and
are not embedded.  Python `sfids[0]` is reached only when the length check has
passed, so `headD` never returns its fallback. -/
def check_is_valid_sfids (sfids : PyArg) : Except PyErr Unit :=
  match sfids with
  | .noneArg => .error .valueError
  | .nonListArg _ => .error .valueError
  | .listArg l =>
    if l.length = 0 then .error .valueError
    else if ((l.map PyVal.ptype).dedup).length ≠ 1 then .error .valueError
    else if ¬ is_valid_sfid (l.headD (.intV 0)) then .error .valueError
    else if ¬ is_uniq_np1darr l then .error .valueError
    else .ok ()

/-- Spec-side predicate (section 4.1 / section 8 of the spec, stated in the
spec's own words): the collection is a list that is non-empty, of homogeneous
element type in {integer, string}, and duplicate-free. -/
def validIdSet (sfids : PyArg) : Prop :=
  match sfids with
  | .listArg l =>
      l ≠ [] ∧
      (∃ t : PyType, (t = .intT ∨ t = .strT) ∧ ∀ v ∈ l, v.ptype = t) ∧
      l.Nodup
  | _ => False

/-- Embeds `SingleLabelClassifiedSamples.is_valid_lab`. -/
def is_valid_lab (v : PyVal) : Bool :=
  match v with
  | .intV _ => true
  | .strV _ => true
  | .otherV _ _ => false

/-- Embeds `SingleLabelClassifiedSamples.check_is_valid_labs`: checks `None`,
non-list, empty, mixed types, first element not int/str — and, unlike
`check_is_valid_sfids`, performs no duplicate check.  The two trailing
`assert` statements always hold for a list of scalars. -/
def check_is_valid_labs (labs : PyArg) : Except PyErr Unit :=
  match labs with
  | .noneArg => .error .valueError
  | .nonListArg _ => .error .valueError
  | .listArg l =>
    if l.length = 0 then .error .valueError
    else if ((l.map PyVal.ptype).dedup).length ≠ 1 then .error .valueError
    else if ¬ is_valid_lab (l.headD (.intV 0)) then .error .valueError
    else .ok ()

/-- Embeds the label-validation stage of
`SingleLabelClassifiedSamples.__init__`: first `check_is_valid_labs(labs)`,
then the length comparison against the number of samples
(`sids must have the same length as labs`). -/
def slcs_init_label_check (n_samples : Nat) (labs : PyArg) : Except PyErr Unit :=
  match check_is_valid_labs labs with
  | .error e => .error e
  | .ok _ =>
    match labs with
    | .listArg l => if l.length = n_samples then .ok () else .error .valueError
    | _ => .error .valueError

/-- Deduplicating a non-empty constant list yields the singleton. -/
theorem dedup_replicate_succ {β : Type} [DecidableEq β] (x : β) :
    ∀ n : Nat, (List.replicate (n + 1) x).dedup = [x]
  | 0 => by simp
  | n + 1 => by
    rw [List.replicate_succ,
      List.dedup_cons_of_mem (List.mem_replicate.mpr ⟨Nat.succ_ne_zero n, rfl⟩)]
    exact dedup_replicate_succ x n

/-- A non-empty list whose deduplication has length one is a list all of whose
elements equal its head, and conversely. -/
theorem dedup_length_one_iff {β : Type} [DecidableEq β] (x : β) (xs : List β) :
    ((x :: xs).dedup.length = 1) ↔ ∀ y ∈ x :: xs, y = x := by
  constructor
  · intro h y hy
    obtain ⟨z, hz⟩ := List.length_eq_one.mp h
    have hxz : x = z := by
      have hx : x ∈ (x :: xs).dedup := List.mem_dedup.mpr (List.mem_cons_self x xs)
      rw [hz] at hx
      exact List.mem_singleton.mp hx
    have hyz : y = z := by
      have hy' : y ∈ (x :: xs).dedup := List.mem_dedup.mpr hy
      rw [hz] at hy'
      exact List.mem_singleton.mp hy'
    rw [hyz, hxz]
  · intro h
    have hrep : x :: xs = List.replicate (xs.length + 1) x :=
      List.eq_replicate_iff.mpr ⟨by simp, h⟩
    rw [hrep, dedup_replicate_succ, List.length_singleton]

/-- C4: the identifier validator accepts a collection iff it is a non-empty
list, of homogeneous element type in {integer, string}, and duplicate-free;
equivalently it raises the invalid-identifier `ValueError` exactly when the
input is absent, not a list, empty, of mixed types, of a type other than
integer/string, or contains duplicates. -/
theorem check_is_valid_sfids_iff (sfids : PyArg) :
    check_is_valid_sfids sfids = .ok () ↔ validIdSet sfids := by
  cases sfids with
  | noneArg => simp [check_is_valid_sfids, validIdSet]
  | nonListArg tag => simp [check_is_valid_sfids, validIdSet]
  | listArg l =>
    cases l with
    | nil => simp [check_is_valid_sfids, validIdSet]
    | cons v rest =>
      simp only [check_is_valid_sfids, validIdSet, is_uniq_np1darr]
      have hne : v :: rest ≠ ([] : List PyVal) := by simp
      have hlen : (v :: rest).length ≠ 0 := by simp
      constructor
      · intro h
        rw [if_neg hlen] at h
        by_cases hmix : (((v :: rest).map PyVal.ptype).dedup).length ≠ 1
        · rw [if_pos hmix] at h
          exact absurd h (by simp)
        · rw [if_neg hmix] at h
          by_cases hfst : ¬ is_valid_sfid ((v :: rest).headD (.intV 0))
          · rw [if_pos hfst] at h
            exact absurd h (by simp)
          · rw [if_neg hfst] at h
            by_cases hdup : ¬ decide (v :: rest).Nodup = true
            · rw [if_pos hdup] at h
              exact absurd h (by simp)
            · refine ⟨hne, ⟨v.ptype, ?_, ?_⟩, ?_⟩
              · have hv : is_valid_sfid v = true := by
                  simpa using not_not.mp hfst
                cases v with
                | intV n => exact Or.inl rfl
                | strV s => exact Or.inr rfl
                | otherV a b => exact absurd hv (by simp [is_valid_sfid])
              · intro w hw
                have hmix' := not_not.mp hmix
                rw [List.map_cons] at hmix'
                have hall := (dedup_length_one_iff (PyVal.ptype v)
                  (rest.map PyVal.ptype)).mp hmix'
                have : w.ptype ∈ (v :: rest).map PyVal.ptype :=
                  List.mem_map_of_mem PyVal.ptype hw
                rw [List.map_cons] at this
                exact hall w.ptype this
              · exact of_decide_eq_true (not_not.mp hdup)
      · rintro ⟨-, ⟨t, htval, hall⟩, hnd⟩
        have hvt : v.ptype = t := hall v (List.mem_cons_self v rest)
        have hmix : (((v :: rest).map PyVal.ptype).dedup).length = 1 := by
          rw [List.map_cons]
          refine (dedup_length_one_iff (PyVal.ptype v) (rest.map PyVal.ptype)).mpr ?_
          intro y hy
          rw [← List.map_cons] at hy
          obtain ⟨w, hw, rfl⟩ := List.mem_map.mp hy
          rw [hall w hw, hvt]
        have hfst : is_valid_sfid ((v :: rest).headD (.intV 0)) = true := by
          have : is_valid_sfid v = true := by
            cases v with
            | intV n => rfl
            | strV s => rfl
            | otherV a b =>
              rcases htval with h | h <;> simp [PyVal.ptype] at hvt <;>
                rw [h] at hvt <;> exact absurd hvt (by simp)
          simpa using this
        rw [if_neg hlen, if_neg (not_not.mpr hmix), if_neg (not_not.mpr hfst),
          if_neg (not_not.mpr (decide_eq_true hnd))]

/-- C6 counterexample: the list `["a", "a"]` contains a duplicate label, yet
`check_is_valid_labs` accepts it and the full label-validation stage of the
constructor succeeds with matching length 2 — while the identifier validator
of section 4.1 rejects the very same list.  So labels are not validated by the
4.1 validator and duplicate labels do not fail construction. -/
theorem check_is_valid_labs_accepts_duplicates :
    check_is_valid_labs (.listArg [.strV ("a"), .strV ("a")]) = .ok () ∧
    slcs_init_label_check 2 (.listArg [.strV ("a"), .strV ("a")]) = .ok () ∧
    ¬ ([PyVal.strV ("a"), PyVal.strV ("a")].Nodup) ∧
    check_is_valid_sfids (.listArg [.strV ("a"), .strV ("a")]) = .error .valueError := by
  refine ⟨rfl, rfl, by decide, rfl⟩

/-- Spec-side predicate for a valid label list (data-model section 3 of the
spec): a non-empty homogeneous list of integers or strings; values may
repeat. -/
def validLabList (labs : PyArg) : Prop :=
  match labs with
  | .listArg l =>
      l ≠ [] ∧
      (∃ t : PyType, (t = .intT ∨ t = .strT) ∧ ∀ v ∈ l, v.ptype = t)
  | _ => False

/-- C6 (amended): construction validates labels with the label validator
`check_is_valid_labs`, which checks presence, list-ness, non-emptiness,
homogeneity and int/str element type but — unlike the identifier validator of
section 4.1 — performs no duplicate check; a homogeneous, non-empty label list
containing duplicates passes label validation (labels may repeat, as the data
model states). -/
theorem check_is_valid_labs_iff (labs : PyArg) :
    check_is_valid_labs labs = .ok () ↔ validLabList labs := by
  cases labs with
  | noneArg => simp [check_is_valid_labs, validLabList]
  | nonListArg tag => simp [check_is_valid_labs, validLabList]
  | listArg l =>
    cases l with
    | nil => simp [check_is_valid_labs, validLabList]
    | cons v rest =>
      simp only [check_is_valid_labs, validLabList]
      have hne : v :: rest ≠ ([] : List PyVal) := by simp
      have hlen : (v :: rest).length ≠ 0 := by simp
      constructor
      · intro h
        rw [if_neg hlen] at h
        by_cases hmix : (((v :: rest).map PyVal.ptype).dedup).length ≠ 1
        · rw [if_pos hmix] at h
          exact absurd h (by simp)
        · rw [if_neg hmix] at h
          by_cases hfst : ¬ is_valid_lab ((v :: rest).headD (.intV 0))
          · rw [if_pos hfst] at h
            exact absurd h (by simp)
          · refine ⟨hne, ⟨v.ptype, ?_, ?_⟩⟩
            · have hv : is_valid_lab v = true := by
                simpa using not_not.mp hfst
              cases v with
              | intV n => exact Or.inl rfl
              | strV s => exact Or.inr rfl
              | otherV a b => exact absurd hv (by simp [is_valid_lab])
            · intro w hw
              have hmix' := not_not.mp hmix
              rw [List.map_cons] at hmix'
              have hall := (dedup_length_one_iff (PyVal.ptype v)
                (rest.map PyVal.ptype)).mp hmix'
              have : w.ptype ∈ (v :: rest).map PyVal.ptype :=
                List.mem_map_of_mem PyVal.ptype hw
              rw [List.map_cons] at this
              exact hall w.ptype this
      · rintro ⟨-, ⟨t, htval, hall⟩⟩
        have hvt : v.ptype = t := hall v (List.mem_cons_self v rest)
        have hmix : (((v :: rest).map PyVal.ptype).dedup).length = 1 := by
          rw [List.map_cons]
          refine (dedup_length_one_iff (PyVal.ptype v) (rest.map PyVal.ptype)).mpr ?_
          intro y hy
          rw [← List.map_cons] at hy
          obtain ⟨w, hw, rfl⟩ := List.mem_map.mp hy
          rw [hall w hw, hvt]
        have hfst : is_valid_lab ((v :: rest).headD (.intV 0)) = true := by
          have : is_valid_lab v = true := by
            cases v with
            | intV n => rfl
            | strV s => rfl
            | otherV a b =>
              rcases htval with h | h <;> simp [PyVal.ptype] at hvt <;>
                rw [h] at hvt <;> exact absurd hvt (by simp)
          simpa using this
        rw [if_neg hlen, if_neg (not_not.mpr hmix), if_neg (not_not.mpr hfst)]

/-- Embeds the first repair step of `SampleDistanceMatrix.num_correct_dist_mat`
(`dmat[dmat < 0] = 0`): clamp negative entries to 0. -/
def clamp_neg {n : Nat} (dmat : Fin n → Fin n → ℚ) : Fin n → Fin n → ℚ :=
  fun i j => if dmat i j < 0 then 0 else dmat i j

/-- Embeds the second repair step (`dmat[np.diag_indices(...)] = 0`): force
the diagonal to exactly 0. -/
def zero_diag {n : Nat} (dmat : Fin n → Fin n → ℚ) : Fin n → Fin n → ℚ :=
  fun i j => if i = j then 0 else dmat i j

/-- Embeds the optional third repair step (`dmat[dmat > upper_bound] =
upper_bound`): clamp entries above the bound down to the bound. -/
def clamp_upper {n : Nat} (ub : ℚ) (dmat : Fin n → Fin n → ℚ) : Fin n → Fin n → ℚ :=
  fun i j => if dmat i j > ub then ub else dmat i j

/-- Embeds the final repair step
(`dmat[np.triu_indices_from(dmat)] = dmat.T[np.triu_indices_from(dmat)]`):
every upper-triangle position `(i, j)` with `i ≤ j` receives the value of the
transpose at that position, i.e. the pre-assignment value of the lower-triangle
position `(j, i)`; numpy evaluates the right-hand side before assigning, so
the assignment reads only pre-assignment values. -/
def symmetrize_triu {n : Nat} (dmat : Fin n → Fin n → ℚ) : Fin n → Fin n → ℚ :=
  fun i j => if i ≤ j then dmat j i else dmat i j

/-- Embeds `SampleDistanceMatrix.num_correct_dist_mat` on a square matrix:
the two `np.testing.assert_allclose` checks only emit warnings and never
change the matrix, so they are not part of the value-level embedding; then the
four repair steps run in source order. -/
def num_correct_dist_mat {n : Nat} (dmat : Fin n → Fin n → ℚ)
    (upper_bound : Option ℚ) : Fin n → Fin n → ℚ :=
  symmetrize_triu
    (match upper_bound with
     | none => zero_diag (clamp_neg dmat)
     | some ub => clamp_upper ub (zero_diag (clamp_neg dmat)))

/-- C5: for every square matrix, the corrected matrix (no upper bound) has
every diagonal entry exactly 0 and equals its own transpose exactly. -/
theorem num_correct_dist_mat_diag_zero_symm {n : Nat} (dmat : Fin n → Fin n → ℚ) :
    (∀ i : Fin n, num_correct_dist_mat dmat none i i = 0) ∧
    (∀ i j : Fin n, num_correct_dist_mat dmat none i j =
      num_correct_dist_mat dmat none j i) := by
  constructor
  · intro i
    simp [num_correct_dist_mat, symmetrize_triu, zero_diag]
  · intro i j
    rcases le_total i j with hij | hji
    · by_cases hji' : j ≤ i
      · have : i = j := le_antisymm hij hji'
        rw [this]
      · simp [num_correct_dist_mat, symmetrize_triu, hij, hji']
    · by_cases hij' : i ≤ j
      · have : i = j := le_antisymm hij' hji
        rw [this]
      · simp [num_correct_dist_mat, symmetrize_triu, hji, hij']

/-- The rational 0.5, built as a raw `Rat` structure literal so that the
kernel can evaluate comparisons on it. -/
def halfQ : ℚ := ⟨1, 2, by decide, Nat.coprime_one_left 2⟩

/-- The structure literal `halfQ` is the rational number 1/2. -/
theorem halfQ_eq : halfQ = 1/2 := by
  show Rat.mk' 1 2 = 1/2
  rw [Rat.mk'_eq_divInt, Rat.divInt_eq_div]
  norm_num

/-- The distance matrix of concrete scenario C of the spec:
`[[0, 1, 2], [1, 0, -0.5], [2, 0.5, 0]]`. -/
def scenarioC_dmat : Fin 3 → Fin 3 → ℚ :=
  ![![0, 1, 2], ![1, 0, -halfQ], ![2, halfQ, 0]]

/-- The output matrix the claim asserts for scenario C:
`[[0, 1, 2], [1, 0, 0], [2, 0, 0]]`. -/
def scenarioC_claimed : Fin 3 → Fin 3 → ℚ :=
  ![![0, 1, 2], ![1, 0, 0], ![2, 0, 0]]

/-- The output matrix the code actually produces for scenario C:
`[[0, 1, 2], [1, 0, 0.5], [2, 0.5, 0]]`. -/
def scenarioC_actual : Fin 3 → Fin 3 → ℚ :=
  ![![0, 1, 2], ![1, 0, halfQ], ![2, halfQ, 0]]

/-- C1 counterexample: on input `[[0, 1, 2], [1, 0, -0.5], [2, 0.5, 0]]` with
no upper bound, `num_correct_dist_mat` does not return the claimed matrix
`[[0, 1, 2], [1, 0, 0], [2, 0, 0]]`: the entry at row 1, column 2 (0-based) is
0.5, not 0, because the final repair step copies the lower triangle onto the
upper triangle (the lower triangle is authoritative), not the upper onto the
lower. -/
theorem num_correct_dist_mat_scenarioC_counterexample :
    num_correct_dist_mat scenarioC_dmat none 1 2 = (1/2 : ℚ) ∧
    scenarioC_claimed 1 2 = (0 : ℚ) ∧
    ¬ (∀ i j : Fin 3, num_correct_dist_mat scenarioC_dmat none i j =
        scenarioC_claimed i j) := by
  refine ⟨by rw [← halfQ_eq]; decide, by decide, by decide⟩

/-- C1 (amended): the repair steps are applied in order (clamp negatives to 0,
force diagonal to 0, optional upper-bound clamp, then force exact symmetry by
copying the lower triangle onto the upper triangle — the lower triangle, not
the upper, is authoritative); in particular, on input
`[[0, 1, 2], [1, 0, -0.5], [2, 0.5, 0]]` with no upper bound, the correction
returns exactly `[[0, 1, 2], [1, 0, 0.5], [2, 0.5, 0]]`.  The second conjunct
states the step order and authority in general: with no upper bound, every
entry at a position `(i, j)` with `i ≤ j` equals the value of the
diagonal-zeroed negative-clamped input at the mirrored lower position. -/
theorem num_correct_dist_mat_scenarioC_amended :
    (∀ i j : Fin 3, num_correct_dist_mat scenarioC_dmat none i j =
      scenarioC_actual i j) ∧
    (∀ (n : Nat) (dmat : Fin n → Fin n → ℚ) (i j : Fin n), i ≤ j →
      num_correct_dist_mat dmat none i j = zero_diag (clamp_neg dmat) j i) := by
  constructor
  · decide
  · intro n dmat i j hij
    simp [num_correct_dist_mat, symmetrize_triu, hij]

/-- C1 amended witness: the general lower-triangle-authoritative conjunct
instantiated at the scenario-C matrix and position (1, 2). -/
theorem num_correct_dist_mat_scenarioC_amended_witness :
    num_correct_dist_mat scenarioC_dmat none 1 2 =
      zero_diag (clamp_neg scenarioC_dmat) 2 1 :=
  num_correct_dist_mat_scenarioC_amended.2 3 scenarioC_dmat 1 2 (by decide)

section LabeledIndex

variable {α : Type} [LinearOrder α] [DecidableEq α]

/-- Embeds one bucket of the `_sid_lut` built in
`SingleLabelClassifiedSamples.__init__`: `self._sids[labs == uniq_lab]`, the
sample ids (in original order) of the samples carrying the given label.  The
row pairing of `sids` and `labs` is embedded as `zip`. -/
def sid_lut_bucket (sids labs : List α) (lab : α) : List α :=
  ((sids.zip labs).filter (fun p => decide (p.2 = lab))).map Prod.fst

/-- Embeds `np.unique` (and `sorted(self._sid_lut.keys())`): the distinct
values in ascending order. -/
def uniq_sorted (xs : List α) : List α :=
  List.insertionSort (· ≤ ·) xs.dedup

/-- Embeds the inner helper `sort_flat_sids(query_sids, ref_sids)` of
`lab_sorted_sids`: `ref_sids[np.in1d(ref_sids, query_sids)]`, the elements of
the reference order that belong to the query, in reference order. -/
def sort_flat_sids (query_sids ref_sids : List α) : List α :=
  ref_sids.filter (fun x => decide (x ∈ query_sids))

/-- Embeds `SingleLabelClassifiedSamples.lab_sorted_sids`.  Buckets are listed
per distinct label in ascending label order; with a reference order, each
bucket is reordered by the reference, the per-bucket representatives
(`x[0]`, embedded as `headD` — reached only on non-empty buckets) are sorted
by the reference, and `list.index` recovers each representative's bucket
position (embedded as `indexOf`); both the bucket list and the label list are
then re-indexed by those positions (Python `l[i]`, embedded as `getD`, is in
range whenever the representatives are distinct).  The calls
`self.check_is_valid_sfids(ref_sid_order)` only raise on an invalid reference
and do not contribute to the value; validity of the reference is a hypothesis
of the theorems below. -/
def lab_sorted_sids [Inhabited α] (sids labs : List α)
    (ref_sid_order : Option (List α)) : List α × List α :=
  let uls := uniq_sorted labs
  let sepLabSid := uls.map (sid_lut_bucket sids labs)
  let sepLab := uls.map (fun l => List.replicate (sid_lut_bucket sids labs l).length l)
  match ref_sid_order with
  | none => (sepLabSid.flatten, sepLab.flatten)
  | some r =>
    let sepLabSid2 := sepLabSid.map (fun b => sort_flat_sids b r)
    let reps := sepLabSid2.map (fun b => b.headD default)
    let sortedReps := sort_flat_sids reps r
    let idxs := sortedReps.map (fun x => reps.indexOf x)
    ((idxs.map (fun i => sepLabSid2.getD i [])).flatten,
     (idxs.map (fun i => sepLab.getD i [])).flatten)

/-- Embeds `np.sort` on a 1-D array: ascending sort. -/
def sortAsc (xs : List α) : List α :=
  List.insertionSort (· ≤ ·) xs

/-- Embeds indexing an aligned (sid, lab) pairing by `np.argsort` of the sids:
because the sample ids are distinct, reordering the pairs by ascending sid is
exactly sorting the pairs by their first component. -/
def sortPairsByFst (ps : List (α × α)) : List (α × α) :=
  List.insertionSort (fun p q => p.1 ≤ q.1) ps

end LabeledIndex

/-- Kernel-computable decidability of the string strict order, via the
underlying character lists (Python compares strings lexicographically by code
point, which is exactly this order). -/
def strDecLT (s t : String) : Decidable (s < t) :=
  decidable_of_iff _ String.lt_iff_toList_lt.symm

/-- Kernel-computable decidability of the string order. -/
def strDecLE (s t : String) : Decidable (s ≤ t) :=
  decidable_of_iff _ String.le_iff_toList_le.symm

/-- The standard linear order on strings, with its decidability fields
replaced by the kernel-computable versions above (the order itself is
unchanged); used to instantiate the index operations at concrete string
scenarios. -/
def strLinearOrder : LinearOrder String where
  le := (· ≤ ·)
  lt := (· < ·)
  le_refl := le_refl
  le_trans := fun _ _ _ => le_trans
  lt_iff_le_not_le := fun _ _ => lt_iff_le_not_le
  le_antisymm := fun _ _ => le_antisymm
  le_total := le_total
  decidableLE := strDecLE
  decidableLT := strDecLT
  decidableEq := instDecidableEqString
  min := fun a b => @ite _ (a ≤ b) (strDecLE a b) a b
  max := fun a b => @ite _ (a ≤ b) (strDecLE a b) b a
  min_def := fun _ _ => rfl
  max_def := fun _ _ => rfl
  compare := fun a b => @compareOfLessAndEq String a b _ (strDecLT a b) instDecidableEqString
  compare_eq_compareOfLessAndEq := fun _ _ => rfl

/-- C3: for the index with samples `["s1", "s2", "s3"]` and labels
`["a", "b", "a"]`, `lab_sorted_sids` with no reference order returns sample
order `["s1", "s3", "s2"]` with labels `["a", "a", "b"]`, and with reference
order `["s3", "s2", "s1"]` returns sample order `["s3", "s1", "s2"]` with
labels `["a", "a", "b"]`. -/
theorem lab_sorted_sids_scenarioAB :
    @lab_sorted_sids String strLinearOrder instDecidableEqString
        String.instInhabited ["s1", "s2", "s3"] ["a", "b", "a"] none =
      (["s1", "s3", "s2"], ["a", "a", "b"]) ∧
    @lab_sorted_sids String strLinearOrder instDecidableEqString
        String.instInhabited ["s1", "s2", "s3"] ["a", "b", "a"]
        (some ["s3", "s2", "s1"]) =
      (["s3", "s1", "s2"], ["a", "a", "b"]) := by
  refine ⟨by decide, by decide⟩

section Lookups

variable {α : Type} [LinearOrder α] [DecidableEq α]

/-- Embeds a sequence of `self._lab_lut[x]` lookups (a Python list
comprehension over `_lab_lut`, which maps each sample id to its label):
`none` models the `KeyError` raised when some id is absent.  `_lab_lut` is
built by iterating over the (sid, lab) rows, embedded as `find?` over the
zipped rows (the sample ids are unique in every constructed instance, so
first match and last match agree). -/
def lookup_labs (pairs : List (α × α)) : List α → Option (List α)
  | [] => some []
  | s :: rest =>
    match pairs.find? (fun p => decide (p.1 = s)), lookup_labs pairs rest with
    | some p, some ls => some (p.2 :: ls)
    | _, _ => none

/-- Embeds `SingleLabelClassifiedSamples.sids_to_labs`. -/
def sids_to_labs (sids labs query : List α) : Option (List α) :=
  lookup_labs (sids.zip labs) query

/-- Embeds `SingleLabelClassifiedSamples.labs_to_sids`: one `_sid_lut` bucket
per requested label; `none` models the `KeyError` raised for an unobserved
label (`_sid_lut` has one key per distinct observed label). -/
def labs_to_sids (sids labs : List α) : List α → Option (List (List α))
  | [] => some []
  | y :: rest =>
    if y ∈ labs then
      match labs_to_sids sids labs rest with
      | some t => some (sid_lut_bucket sids labs y :: t)
      | none => none
    else none

/-- Membership in a `_sid_lut` bucket is exactly having the bucket's label in
the zipped (sid, lab) rows. -/
theorem mem_sid_lut_bucket {sids labs : List α} {L x : α} :
    x ∈ sid_lut_bucket sids labs L ↔ (x, L) ∈ sids.zip labs := by
  unfold sid_lut_bucket
  constructor
  · intro hx
    obtain ⟨p, hp, rfl⟩ := List.mem_map.mp hx
    obtain ⟨hpz, hpl⟩ := List.mem_filter.mp hp
    have h2 : p.2 = L := of_decide_eq_true hpl
    have : (p.1, L) = p := by rw [← h2]
    rw [this]
    exact hpz
  · intro hm
    exact List.mem_map.mpr ⟨(x, L), List.mem_filter.mpr ⟨hm, by simp⟩, rfl⟩

/-- The size of a `_sid_lut` bucket is the number of occurrences of its label
(rows are aligned, so the boolean mask `labs == lab` selects one sid per
occurrence). -/
theorem sid_lut_bucket_length (sids labs : List α) (L : α)
    (hlen : sids.length = labs.length) :
    (sid_lut_bucket sids labs L).length = labs.count L := by
  unfold sid_lut_bucket
  rw [List.length_map]
  induction sids generalizing labs with
  | nil =>
    cases labs with
    | nil => simp
    | cons b bs => simp at hlen
  | cons s ss ih =>
    cases labs with
    | nil => simp at hlen
    | cons b bs =>
      rw [List.zip_cons_cons, List.filter_cons]
      have hlen' : ss.length = bs.length := by simpa using hlen
      by_cases hb : b = L
      · subst hb
        simp [List.count_cons, ih bs hlen']
      · simp [hb, List.count_cons, ih bs hlen']

/-- With duplicate-free sample ids, `find?` on the zipped rows returns exactly
the row of the requested sample id. -/
theorem find_pair_of_nodup (sids labs : List α) (x l : α) (hnd : sids.Nodup)
    (hmem : (x, l) ∈ sids.zip labs) :
    (sids.zip labs).find? (fun p => decide (p.1 = x)) = some (x, l) := by
  induction sids generalizing labs with
  | nil => simp at hmem
  | cons s ss ih =>
    cases labs with
    | nil => simp at hmem
    | cons b bs =>
      rw [List.zip_cons_cons] at hmem ⊢
      obtain ⟨hs, hnd'⟩ := List.nodup_cons.mp hnd
      by_cases hx : s = x
      · subst hx
        rcases List.mem_cons.mp hmem with h | h
        · rw [← h]
          exact List.find?_cons_of_pos _ (by simp)
        · exact absurd (List.of_mem_zip h).1 hs
      · rw [List.find?_cons_of_neg _ (by simpa using hx)]
        rcases List.mem_cons.mp hmem with h | h
        · injection h with h1 h2
          exact absurd h1.symm hx
        · exact ih bs hnd' h

/-- If every queried id resolves to the label `L`, the lookup sequence
returns `L` once per query element. -/
theorem lookup_labs_replicate (pairs : List (α × α)) (q : List α) (L : α)
    (h : ∀ x ∈ q, pairs.find? (fun p => decide (p.1 = x)) = some (x, L)) :
    lookup_labs pairs q = some (List.replicate q.length L) := by
  induction q with
  | nil => rfl
  | cons x rest ih =>
    have hx := h x (List.mem_cons_self x rest)
    have hrest := ih (fun y hy => h y (List.mem_cons_of_mem x hy))
    simp only [lookup_labs, hx, hrest, List.length_cons, List.replicate_succ]

/-- C7: for every observed label L, composing `labs_to_sids [L]` with
`sids_to_labs` returns exactly the entries of the samples labeled L: the
bucket has one sample id per occurrence of L, and looking those ids up yields
the label L once per such sample. -/
theorem labs_sids_roundtrip (sids labs : List α) (L : α)
    (hnd : sids.Nodup) (hlen : sids.length = labs.length) (hL : L ∈ labs) :
    labs_to_sids sids labs [L] = some [sid_lut_bucket sids labs L] ∧
    (sid_lut_bucket sids labs L).length = labs.count L ∧
    sids_to_labs sids labs (sid_lut_bucket sids labs L) =
      some (List.replicate (labs.count L) L) := by
  refine ⟨by simp [labs_to_sids, hL], sid_lut_bucket_length sids labs L hlen, ?_⟩
  have hlk : lookup_labs (sids.zip labs) (sid_lut_bucket sids labs L) =
      some (List.replicate (sid_lut_bucket sids labs L).length L) := by
    refine lookup_labs_replicate _ _ _ ?_
    intro x hx
    exact find_pair_of_nodup sids labs x L hnd (mem_sid_lut_bucket.mp hx)
  rw [sids_to_labs, hlk, sid_lut_bucket_length sids labs L hlen]

/-- C7 witness: the round-trip at sids `[1, 2, 3]`, labels `[10, 20, 10]`,
label 10. -/
theorem labs_sids_roundtrip_witness :
    labs_to_sids [1, 2, 3] [10, 20, 10] [10] = some [[1, 3]] ∧
    ([1, 3] : List ℕ).length = List.count 10 [10, 20, 10] ∧
    sids_to_labs [1, 2, 3] [10, 20, 10] [1, 3] = some [10, 10] := by
  have h := labs_sids_roundtrip [1, 2, 3] [10, 20, 10] 10
    (by decide) (by decide) (by decide)
  refine ⟨?_, ?_, ?_⟩
  · have := h.1
    rwa [show sid_lut_bucket [1, 2, 3] [10, 20, 10] 10 = [1, 3] from rfl] at this
  · have := h.2.1
    simpa using this
  · have := h.2.2
    rwa [show sid_lut_bucket [1, 2, 3] [10, 20, 10] 10 = [1, 3] from rfl] at this

end Lookups

section CrossLabs

variable {α : Type} [LinearOrder α] [DecidableEq α]

/-- Embeds `np.unique(xs, return_counts=True)`: the distinct values in
ascending order, each paired with its number of occurrences. -/
def uniq_counts (xs : List α) : List (α × Nat) :=
  (uniq_sorted xs).map (fun v => (v, xs.count v))

/-- Embeds `SingleLabelClassifiedSamples.cross_labs`.  The reference index is
given by its aligned (sid, lab) rows, the query index by its aligned sids and
labs; `ref_labs_on_q` is the list comprehension `[self._lab_lut[x] for x in
q_slc_samples.sids]` (`none` models the `KeyError` → `ValueError` path for an
unknown query sid).  For each distinct reference label (in `np.unique` order)
the result pairs its count with the `np.unique(..., return_counts=True)` of
the query labels at the positions carrying that reference label (a boolean
mask on aligned arrays, embedded as filtering the zipped rows).  The Python
dict keyed by reference label is embedded as the association list in key
order. -/
def cross_labs (ref_sids ref_labs q_sids q_labs : List α) :
    Option (List (α × Nat × List (α × Nat))) :=
  match lookup_labs (ref_sids.zip ref_labs) q_sids with
  | none => none
  | some rlabs =>
    some ((uniq_sorted rlabs).map (fun rl =>
      (rl, rlabs.count rl,
        uniq_counts (((rlabs.zip q_labs).filter
          (fun p => decide (p.1 = rl))).map Prod.snd))))

end CrossLabs

/-- C8: for a reference index with labels {s1: A, s2: A, s3: B} and a query
index over the same samples with labels {s1: X, s2: Y, s3: X},
cross-tabulation returns, for label A, count 2 with distribution
{X: 1, Y: 1}, and for label B, count 1 with distribution {X: 1}. -/
theorem cross_labs_scenario :
    @cross_labs String strLinearOrder instDecidableEqString
        ["s1", "s2", "s3"] ["A", "A", "B"] ["s1", "s2", "s3"] ["X", "Y", "X"] =
      some [("A", 2, [("X", 1), ("Y", 1)]), ("B", 1, [("X", 1)])] := by
  decide

/-- The outcome of the distance set-up in `SampleDistanceMatrix.__init__`:
either the matrix is computed by the external pairwise-distance routine with
the given metric string and worker count, or the supplied matrix is used. -/
inductive DistSource
  | computed : String → Int → DistSource
  | supplied : DistSource
deriving DecidableEq

/-- Errors raised by the distance set-up of `SampleDistanceMatrix.__init__`:
the missing-metric error and the shape error for a supplied matrix (a
supplied value that cannot convert to a float matrix also raises a
`ValueError`; it is folded into the shape constructor here since no claim
distinguishes the two messages). -/
inductive SdmInitErr
  | metricRequired : SdmInitErr
  | badShape : SdmInitErr
deriving DecidableEq

/-- Embeds the `nprocs` normalization in `SampleDistanceMatrix.__init__`:
`1` when omitted, otherwise `max(int(nprocs), 1)` (the argument is embedded
already truncated to an integer). -/
def sdm_resolve_nprocs (nprocs : Option Int) : Int :=
  match nprocs with
  | none => 1
  | some k => max k 1

/-- Embeds the distance set-up branch of `SampleDistanceMatrix.__init__`: if
`d` is omitted, a metric is mandatory (the embedded metric argument is
already a string, so the `type(metric) != str` branch cannot fire) and the
matrix is computed externally with that metric and the normalized worker
count; if `d` is supplied, it must be a square 2-D matrix whose dimension is
the sample count. -/
def sdm_init_dist (n_samples : Nat) (d : Option (List (List ℚ)))
    (metric : Option String) (nprocs : Option Int) : Except SdmInitErr DistSource :=
  match d with
  | none =>
    match metric with
    | none => .error .metricRequired
    | some m => .ok (.computed m (sdm_resolve_nprocs nprocs))
  | some dm =>
    if dm.length = n_samples ∧ dm.all (fun row => row.length = n_samples)
    then .ok .supplied
    else .error .badShape

/-- The default value of the `metric` parameter of
`SingleLabelClassifiedSamples.__init__`: a caller that omits the argument
constructs the underlying `SampleDistanceMatrix` with this metric. -/
def slcs_default_metric : String := "correlation"

/-- C9: constructing a `SingleLabelClassifiedSamples` with the distance
matrix omitted and no metric argument does not fail with the missing-metric
error: the metric parameter defaults to "correlation" and the distance matrix
is computed with that metric (and worker count 1 when `nprocs` is also
omitted), even though section 4.4 makes the metric mandatory when distances
are omitted. -/
theorem slcs_omitted_metric_ok :
    slcs_default_metric = "correlation" ∧
    ∀ n_samples : Nat,
      sdm_init_dist n_samples none (some slcs_default_metric) none =
        .ok (.computed "correlation" 1) := by
  exact ⟨rfl, fun _ => rfl⟩

section PermHelpers

/-- Zipping a list with a same-length constant list tags each element. -/
theorem zip_replicate_self {γ δ : Type} (xs : List γ) (a : δ) :
    xs.zip (List.replicate xs.length a) = xs.map (fun x => (x, a)) := by
  induction xs with
  | nil => rfl
  | cons x t ih => rw [List.length_cons, List.replicate_succ, List.zip_cons_cons,
      List.map_cons, ih]

/-- Two duplicate-free lists with the same members are permutations of each
other. -/
theorem perm_of_nodup_of_mem_iff {γ : Type} [DecidableEq γ] {l₁ l₂ : List γ}
    (h₁ : l₁.Nodup) (h₂ : l₂.Nodup) (hm : ∀ x, x ∈ l₁ ↔ x ∈ l₂) : l₁.Perm l₂ := by
  rw [List.perm_iff_count]
  intro x
  by_cases hx : x ∈ l₁
  · rw [List.count_eq_one_of_mem h₁ hx, List.count_eq_one_of_mem h₂ ((hm x).mp hx)]
  · rw [List.count_eq_zero_of_not_mem hx,
      List.count_eq_zero_of_not_mem (fun hc => hx ((hm x).mpr hc))]

/-- Count of an element in a filtered list. -/
theorem count_filter_eq {γ : Type} [DecidableEq γ] (q : γ → Bool) (x : γ)
    (P : List γ) :
    List.count x (P.filter q) = if q x = true then List.count x P else 0 := by
  by_cases h : q x = true
  · rw [if_pos h, List.count_filter h]
  · rw [if_neg h, List.count_eq_zero_of_not_mem]
    intro hc
    exact h (List.mem_filter.mp hc).2

/-- Counting in the concatenation of the fibers of a key function over a
duplicate-free list of keys. -/
theorem count_flatMap_filter_key {γ α : Type} [DecidableEq γ] [DecidableEq α]
    (k : γ → α) (P : List γ) (uls : List α) (hu : uls.Nodup) (x : γ) :
    List.count x (uls.flatMap fun l => P.filter (fun p => decide (k p = l))) =
      if k x ∈ uls then List.count x P else 0 := by
  induction uls with
  | nil => simp
  | cons l rest ih =>
    have hl : l ∉ rest := (List.nodup_cons.mp hu).1
    have hrest := ih (List.nodup_cons.mp hu).2
    rw [List.flatMap_cons, List.count_append, hrest, count_filter_eq]
    by_cases hx : k x = l
    · simp [hx, hl]
    · simp [hx, List.mem_cons]

/-- Concatenating the fibers of a key function over a duplicate-free list of
keys that covers all keys of the list yields a permutation of the list. -/
theorem perm_flatMap_filter_key {γ α : Type} [DecidableEq γ] [DecidableEq α]
    (k : γ → α) (P : List γ) (uls : List α) (hu : uls.Nodup)
    (hall : ∀ p ∈ P, k p ∈ uls) :
    (uls.flatMap fun l => P.filter (fun p => decide (k p = l))).Perm P := by
  rw [List.perm_iff_count]
  intro x
  rw [count_flatMap_filter_key k P uls hu x]
  by_cases hx : k x ∈ uls
  · rw [if_pos hx]
  · rw [if_neg hx, eq_comm, List.count_eq_zero]
    intro hc
    exact hx (hall x hc)

/-- Zipping two flattened lists of blocks with pointwise equal block lengths
zips blockwise. -/
theorem zip_flatten_map {β γ : Type} (us : List β) (f g : β → List γ)
    (h : ∀ u, (f u).length = (g u).length) :
    ((us.map f).flatten).zip ((us.map g).flatten) =
      us.flatMap (fun u => (f u).zip (g u)) := by
  induction us with
  | nil => rfl
  | cons u rest ih =>
    rw [List.map_cons, List.map_cons, List.flatten_cons, List.flatten_cons,
      List.zip_append (h u), List.flatMap_cons, ih]

/-- Reading a list back by positions recovers the list. -/
theorem map_getD_range {γ : Type} (L : List γ) (d : γ) :
    (List.range L.length).map (fun i => L.getD i d) = L := by
  induction L with
  | nil => rfl
  | cons a t ih =>
    rw [List.length_cons, List.range_succ_eq_map, List.map_cons, List.map_map]
    have hc : ((fun i => (a :: t).getD i d) ∘ Nat.succ) = fun i => t.getD i d := by
      funext i
      exact List.getD_cons_succ
    rw [hc, ih, List.getD_cons_zero]

/-- Mapping each element of a duplicate-free list to its own first index
enumerates the positions in order. -/
theorem map_indexOf_self {γ : Type} [DecidableEq γ] (L : List γ) (h : L.Nodup) :
    L.map (fun x => L.indexOf x) = List.range L.length := by
  induction L with
  | nil => rfl
  | cons a t ih =>
    obtain ⟨ha, ht⟩ := List.nodup_cons.mp h
    rw [List.map_cons, List.length_cons, List.range_succ_eq_map, ← ih ht,
      List.map_map]
    congr 1
    · simp [List.indexOf_cons]
    · apply List.map_congr_left
      intro x hx
      have hxa : ¬ (a = x) := fun hc => ha (hc ▸ hx)
      simp [Function.comp, List.indexOf_cons, hxa]

/-- Permuting the blocks of a concatenation permutes the concatenation. -/
theorem perm_flatMap_of_perm {β γ : Type} {us vs : List β} (f : β → List γ)
    (h : us.Perm vs) : (us.flatMap f).Perm (vs.flatMap f) := by
  rw [List.flatMap_def, List.flatMap_def]
  exact (h.map f).flatten

/-- Replacing each block of a concatenation by a permuted block permutes the
concatenation. -/
theorem perm_flatMap_congr {β γ : Type} {us : List β} {f g : β → List γ}
    (h : ∀ u ∈ us, (f u).Perm (g u)) : (us.flatMap f).Perm (us.flatMap g) := by
  induction us with
  | nil => exact List.Perm.refl _
  | cons u rest ih =>
    rw [List.flatMap_cons, List.flatMap_cons]
    exact (h u (List.mem_cons_self u rest)).append
      (ih (fun v hv => h v (List.mem_cons_of_mem u hv)))

/-- The head (with default) of a non-empty list is a member. -/
theorem headD_mem_of_ne_nil {γ : Type} {l : List γ} (d : γ) (h : l ≠ []) :
    l.headD d ∈ l := by
  cases l with
  | nil => exact absurd rfl h
  | cons a t => exact List.mem_cons_self a t

end PermHelpers

section C2Facts

variable {α : Type} [LinearOrder α] [DecidableEq α]

/-- The rows of the zipped (sid, lab) pairing that carry a given label; the
bucket `_sid_lut[lab]` is the `fst`-projection of these rows. -/
def lab_pairs (sids labs : List α) (l : α) : List (α × α) :=
  (sids.zip labs).filter (fun p => decide (p.2 = l))

/-- The distinct sorted values of a list are duplicate-free. -/
theorem uniq_sorted_nodup (xs : List α) : (uniq_sorted xs).Nodup :=
  (List.perm_insertionSort _ _).symm.nodup (List.nodup_dedup xs)

/-- Membership in the distinct sorted values is membership in the list. -/
theorem mem_uniq_sorted {xs : List α} {l : α} : l ∈ uniq_sorted xs ↔ l ∈ xs :=
  ((List.perm_insertionSort _ _).mem_iff).trans List.mem_dedup

/-- Every member of a bucket is a sample id. -/
theorem mem_sids_of_mem_bucket {sids labs : List α} {l x : α}
    (h : x ∈ sid_lut_bucket sids labs l) : x ∈ sids :=
  (List.of_mem_zip (mem_sid_lut_bucket.mp h)).1

/-- Buckets of an index with duplicate-free sample ids are duplicate-free. -/
theorem bucket_nodup {sids labs : List α} (l : α) (hnd : sids.Nodup)
    (hlen : sids.length = labs.length) : (sid_lut_bucket sids labs l).Nodup := by
  have hsub : (sid_lut_bucket sids labs l).Sublist ((sids.zip labs).map Prod.fst) :=
    List.Sublist.map _ (List.filter_sublist _)
  rw [List.map_fst_zip _ _ hlen.le] at hsub
  exact hsub.nodup hnd

/-- The bucket of an observed label is non-empty. -/
theorem bucket_ne_nil {sids labs : List α} {l : α}
    (hlen : sids.length = labs.length) (hl : l ∈ labs) :
    sid_lut_bucket sids labs l ≠ [] := by
  rw [← List.length_pos, sid_lut_bucket_length sids labs l hlen]
  exact List.count_pos_iff.mpr hl

/-- With duplicate-free sample ids, a sample id determines its label in the
zipped rows. -/
theorem snd_eq_of_mem_zip {sids labs : List α} {x a b : α} (hnd : sids.Nodup)
    (h1 : (x, a) ∈ sids.zip labs) (h2 : (x, b) ∈ sids.zip labs) : a = b := by
  have f1 := find_pair_of_nodup sids labs x a hnd h1
  have f2 := find_pair_of_nodup sids labs x b hnd h2
  rw [f1] at f2
  simpa using f2

/-- Tagging each bucket element with the bucket's label recovers exactly the
rows carrying that label. -/
theorem bucket_map_pairs (sids labs : List α) (l : α) :
    (sid_lut_bucket sids labs l).map (fun x => (x, l)) = lab_pairs sids labs l := by
  unfold sid_lut_bucket lab_pairs
  rw [List.map_map]
  have hmap : ((sids.zip labs).filter (fun p => decide (p.2 = l))).map
      ((fun x => (x, l)) ∘ Prod.fst) =
      ((sids.zip labs).filter (fun p => decide (p.2 = l))).map id := by
    apply List.map_congr_left
    intro p hp
    have h2 : p.2 = l := of_decide_eq_true (List.mem_filter.mp hp).2
    show (p.1, l) = p
    rw [← h2]
  rw [hmap, List.map_id]

/-- Zipping a bucket with its label replication yields the rows carrying that
label. -/
theorem bucket_zip_replicate (sids labs : List α) (l : α) :
    (sid_lut_bucket sids labs l).zip
      (List.replicate (sid_lut_bucket sids labs l).length l) =
      lab_pairs sids labs l := by
  rw [zip_replicate_self, bucket_map_pairs]

/-- Concatenating the per-label rows over the distinct sorted labels permutes
the zipped rows. -/
theorem flatMap_lab_pairs_perm (sids labs : List α) :
    ((uniq_sorted labs).flatMap (lab_pairs sids labs)).Perm (sids.zip labs) := by
  refine perm_flatMap_filter_key Prod.snd (sids.zip labs) (uniq_sorted labs)
    (uniq_sorted_nodup labs) ?_
  intro p hp
  exact mem_uniq_sorted.mpr (List.of_mem_zip hp).2

/-- If the output rows are a permutation of the index rows (with aligned
lengths), the three defensive assertions of `lab_sorted_sids` hold: the sorted
output sids equal the sorted input sids, the sorted output labels equal the
sorted input labels, and sorting both pairings by sid yields identical
(sid, lab) pairs. -/
theorem assertions_of_perm (sids labs out1 out2 : List α)
    (hnd : sids.Nodup) (hlen : sids.length = labs.length)
    (hlo : out1.length = out2.length)
    (hp : (out1.zip out2).Perm (sids.zip labs)) :
    sortAsc out1 = sortAsc sids ∧ sortAsc out2 = sortAsc labs ∧
    sortPairsByFst (out1.zip out2) = sortPairsByFst (sids.zip labs) := by
  have hfst : (out1.zip out2).map Prod.fst = out1 := List.map_fst_zip _ _ hlo.le
  have hsnd : (out1.zip out2).map Prod.snd = out2 := List.map_snd_zip _ _ hlo.ge
  have hfstP : (sids.zip labs).map Prod.fst = sids := List.map_fst_zip _ _ hlen.le
  have hsndP : (sids.zip labs).map Prod.snd = labs := List.map_snd_zip _ _ hlen.ge
  have h1 : out1.Perm sids := by
    rw [← hfst, ← hfstP]
    exact hp.map _
  have h2 : out2.Perm labs := by
    rw [← hsnd, ← hsndP]
    exact hp.map _
  refine ⟨?_, ?_, ?_⟩
  · exact List.eq_of_perm_of_sorted
      ((List.perm_insertionSort _ _).trans (h1.trans (List.perm_insertionSort _ _).symm))
      (List.sorted_insertionSort _ _) (List.sorted_insertionSort _ _)
  · exact List.eq_of_perm_of_sorted
      ((List.perm_insertionSort _ _).trans (h2.trans (List.perm_insertionSort _ _).symm))
      (List.sorted_insertionSort _ _) (List.sorted_insertionSort _ _)
  · haveI hTot : IsTotal (α × α) (fun p q => p.1 ≤ q.1) := ⟨fun a b => le_total a.1 b.1⟩
    haveI hTrans : IsTrans (α × α) (fun p q => p.1 ≤ q.1) :=
      ⟨fun _ _ _ hab hbc => le_trans hab hbc⟩
    haveI hAnti : IsAntisymm (α × α) (fun p q : α × α => p.1 < q.1) :=
      ⟨fun _ _ hab hba => absurd (lt_trans hab hba) (lt_irrefl _)⟩
    have hperm : (sortPairsByFst (out1.zip out2)).Perm (sortPairsByFst (sids.zip labs)) :=
      (List.perm_insertionSort _ _).trans (hp.trans (List.perm_insertionSort _ _).symm)
    have hstrict : ∀ (ps : List (α × α)), (ps.map Prod.fst).Nodup →
        List.Sorted (fun p q : α × α => p.1 ≤ q.1) ps →
        List.Sorted (fun p q : α × α => p.1 < q.1) ps := by
      intro ps hndp hs
      have hne : List.Pairwise (fun p q : α × α => p.1 ≠ q.1) ps :=
        (List.pairwise_map).mp hndp
      exact (List.Pairwise.and hs hne).imp (fun h => lt_of_le_of_ne h.1 h.2)
    have hnd1 : ((sortPairsByFst (out1.zip out2)).map Prod.fst).Nodup := by
      have hpm : ((sortPairsByFst (out1.zip out2)).map Prod.fst).Perm sids := by
        have := (List.perm_insertionSort
          (fun p q : α × α => p.1 ≤ q.1) (out1.zip out2)).map Prod.fst
        rw [hfst] at this
        exact this.trans h1
      exact hpm.symm.nodup hnd
    have hnd2 : ((sortPairsByFst (sids.zip labs)).map Prod.fst).Nodup := by
      have hpm : ((sortPairsByFst (sids.zip labs)).map Prod.fst).Perm sids := by
        have := (List.perm_insertionSort
          (fun p q : α × α => p.1 ≤ q.1) (sids.zip labs)).map Prod.fst
        rw [hfstP] at this
        exact this
      exact hpm.symm.nodup hnd
    exact List.eq_of_perm_of_sorted hperm
      (hstrict _ hnd1 (List.sorted_insertionSort _ _))
      (hstrict _ hnd2 (List.sorted_insertionSort _ _))

end C2Facts

section C2Main

variable {α : Type} [LinearOrder α] [DecidableEq α]

/-- The Python local `sep_lab_sid_list` before reference reordering: one
bucket per distinct label, in ascending label order. -/
def sep_lab_sid_list (sids labs : List α) : List (List α) :=
  (uniq_sorted labs).map (sid_lut_bucket sids labs)

/-- The Python local `sep_lab_list`: per distinct label, that label repeated
once per bucket element. -/
def sep_lab_list (sids labs : List α) : List (List α) :=
  (uniq_sorted labs).map
    (fun l => List.replicate (sid_lut_bucket sids labs l).length l)

/-- The Python local `sep_lab_sid_list` after reference reordering: each
bucket reordered by the reference order. -/
def sep_lab_sid_list2 (sids labs r : List α) : List (List α) :=
  (sep_lab_sid_list sids labs).map (fun b => sort_flat_sids b r)

/-- The Python local `sep_lab_min_sid_list`: the representative (`x[0]`) of
each reordered bucket. -/
def sep_lab_min_sid_list [Inhabited α] (sids labs r : List α) : List α :=
  (sep_lab_sid_list2 sids labs r).map (fun b => b.headD default)

/-- The Python local `min_sid_sorted_sep_lab_ind_list`: the bucket positions
of the representatives, in reference order. -/
def min_sid_sorted_ind_list [Inhabited α] (sids labs r : List α) : List Nat :=
  (sort_flat_sids (sep_lab_min_sid_list sids labs r) r).map
    (fun x => (sep_lab_min_sid_list sids labs r).indexOf x)

/-- Unfolding of `lab_sorted_sids` without a reference order. -/
theorem lab_sorted_sids_none_eq [Inhabited α] (sids labs : List α) :
    lab_sorted_sids sids labs none =
      ((sep_lab_sid_list sids labs).flatten, (sep_lab_list sids labs).flatten) := rfl

/-- Unfolding of `lab_sorted_sids` with a reference order. -/
theorem lab_sorted_sids_some_eq [Inhabited α] (sids labs r : List α) :
    lab_sorted_sids sids labs (some r) =
      (((min_sid_sorted_ind_list sids labs r).map
          (fun i => (sep_lab_sid_list2 sids labs r).getD i [])).flatten,
       ((min_sid_sorted_ind_list sids labs r).map
          (fun i => (sep_lab_list sids labs).getD i [])).flatten) := rfl

/-- Reordering a bucket by a reference order that is a permutation of the
sample ids permutes the bucket. -/
theorem sort_flat_bucket_perm {sids labs r : List α} (hnd : sids.Nodup)
    (hlen : sids.length = labs.length) (hr : r.Perm sids) (l : α) :
    (sort_flat_sids (sid_lut_bucket sids labs l) r).Perm
      (sid_lut_bucket sids labs l) := by
  have hrnd : r.Nodup := hr.symm.nodup hnd
  refine perm_of_nodup_of_mem_iff (hrnd.filter _) (bucket_nodup l hnd hlen) ?_
  intro x
  unfold sort_flat_sids
  rw [List.mem_filter]
  constructor
  · rintro ⟨-, hx⟩
    exact of_decide_eq_true hx
  · intro hx
    exact ⟨hr.mem_iff.mpr (mem_sids_of_mem_bucket hx), decide_eq_true hx⟩

/-- The representative list is the per-label representative map. -/
theorem sep_lab_min_sid_list_eq [Inhabited α] (sids labs r : List α) :
    sep_lab_min_sid_list sids labs r =
      (uniq_sorted labs).map
        (fun l => (sort_flat_sids (sid_lut_bucket sids labs l) r).headD default) := by
  unfold sep_lab_min_sid_list sep_lab_sid_list2 sep_lab_sid_list
  rw [List.map_map, List.map_map]
  rfl

/-- The representative of a reordered bucket of an observed label belongs to
the bucket. -/
theorem rep_mem_bucket [Inhabited α] {sids labs r : List α} (hnd : sids.Nodup)
    (hlen : sids.length = labs.length) (hr : r.Perm sids) {l : α}
    (hl : l ∈ uniq_sorted labs) :
    (sort_flat_sids (sid_lut_bucket sids labs l) r).headD default ∈
      sid_lut_bucket sids labs l := by
  have hplen := (sort_flat_bucket_perm hnd hlen hr l).length_eq
  have hbne : sid_lut_bucket sids labs l ≠ [] :=
    bucket_ne_nil hlen (mem_uniq_sorted.mp hl)
  have hne : sort_flat_sids (sid_lut_bucket sids labs l) r ≠ [] := by
    intro hc
    rw [hc] at hplen
    exact hbne (List.length_eq_zero.mp hplen.symm)
  exact ((sort_flat_bucket_perm hnd hlen hr l).mem_iff).mp
    (headD_mem_of_ne_nil default hne)

/-- The representatives are pairwise distinct: they belong to disjoint
buckets. -/
theorem reps_nodup [Inhabited α] {sids labs r : List α} (hnd : sids.Nodup)
    (hlen : sids.length = labs.length) (hr : r.Perm sids) :
    (sep_lab_min_sid_list sids labs r).Nodup := by
  rw [sep_lab_min_sid_list_eq]
  refine List.Nodup.map_on ?_ (uniq_sorted_nodup labs)
  intro l hl l' hl' hrep
  have h1 := rep_mem_bucket hnd hlen hr hl
  have h2 := rep_mem_bucket hnd hlen hr hl'
  rw [hrep] at h1
  exact snd_eq_of_mem_zip hnd (mem_sid_lut_bucket.mp h1) (mem_sid_lut_bucket.mp h2)

/-- Every representative occurs in the reference order. -/
theorem reps_subset [Inhabited α] {sids labs r : List α} (hnd : sids.Nodup)
    (hlen : sids.length = labs.length) (hr : r.Perm sids) :
    ∀ x ∈ sep_lab_min_sid_list sids labs r, x ∈ r := by
  rw [sep_lab_min_sid_list_eq]
  intro x hx
  obtain ⟨l, hl, rfl⟩ := List.mem_map.mp hx
  exact hr.mem_iff.mpr (mem_sids_of_mem_bucket (rep_mem_bucket hnd hlen hr hl))

/-- The index list is a permutation of the positions of the representative
list. -/
theorem idxs_perm_range [Inhabited α] {sids labs r : List α} (hnd : sids.Nodup)
    (hlen : sids.length = labs.length) (hr : r.Perm sids) :
    (min_sid_sorted_ind_list sids labs r).Perm
      (List.range (sep_lab_min_sid_list sids labs r).length) := by
  unfold min_sid_sorted_ind_list
  have hrnd : r.Nodup := hr.symm.nodup hnd
  have hrepnd := reps_nodup hnd hlen hr
  have hperm : (sort_flat_sids (sep_lab_min_sid_list sids labs r) r).Perm
      (sep_lab_min_sid_list sids labs r) := by
    refine perm_of_nodup_of_mem_iff (hrnd.filter _) hrepnd ?_
    intro x
    unfold sort_flat_sids
    rw [List.mem_filter]
    constructor
    · rintro ⟨-, hx⟩
      exact of_decide_eq_true hx
    · intro hx
      exact ⟨reps_subset hnd hlen hr x hx, decide_eq_true hx⟩
  have hm := hperm.map (fun x => (sep_lab_min_sid_list sids labs r).indexOf x)
  rw [map_indexOf_self _ hrepnd] at hm
  exact hm

/-- The reordered-bucket block and the label block at each position have the
same length. -/
theorem block_lengths {sids labs r : List α} (hnd : sids.Nodup)
    (hlen : sids.length = labs.length) (hr : r.Perm sids) (i : Nat) :
    ((sep_lab_sid_list2 sids labs r).getD i []).length =
      ((sep_lab_list sids labs).getD i []).length := by
  by_cases hi : i < (uniq_sorted labs).length
  · rw [List.getD_eq_getElem _ _
        (by simpa [sep_lab_sid_list2, sep_lab_sid_list] using hi),
      List.getD_eq_getElem _ _ (by simpa [sep_lab_list] using hi)]
    simp only [sep_lab_sid_list2, sep_lab_sid_list, sep_lab_list, List.getElem_map]
    rw [List.length_replicate]
    exact (sort_flat_bucket_perm hnd hlen hr _).length_eq
  · rw [List.getD_eq_default _ _
        (by simpa [sep_lab_sid_list2, sep_lab_sid_list] using le_of_not_lt hi),
      List.getD_eq_default _ _ (by simpa [sep_lab_list] using le_of_not_lt hi)]

/-- Reading the blocks back by positions in order recovers the blockwise
zip of reordered buckets with their label replications. -/
theorem range_flatMap_blocks [Inhabited α] (sids labs r : List α) :
    (List.range (uniq_sorted labs).length).flatMap
      (fun i => ((sep_lab_sid_list2 sids labs r).getD i []).zip
        ((sep_lab_list sids labs).getD i [])) =
    (uniq_sorted labs).flatMap
      (fun l => (sort_flat_sids (sid_lut_bucket sids labs l) r).zip
        (List.replicate (sid_lut_bucket sids labs l).length l)) := by
  rw [List.flatMap_def, List.flatMap_def]
  congr 1
  apply List.ext_getElem
  · simp
  · intro i h1 h2
    have hi : i < (uniq_sorted labs).length := by simpa using h2
    simp only [List.getElem_map, List.getElem_range]
    rw [List.getD_eq_getElem _ _
        (by simpa [sep_lab_sid_list2, sep_lab_sid_list] using hi),
      List.getD_eq_getElem _ _ (by simpa [sep_lab_list] using hi)]
    simp only [sep_lab_sid_list2, sep_lab_sid_list, sep_lab_list, List.getElem_map]

/-- Each reordered-bucket block zipped with its label replication permutes
the rows carrying that label. -/
theorem blocks_perm {sids labs r : List α} (hnd : sids.Nodup)
    (hlen : sids.length = labs.length) (hr : r.Perm sids) (l : α) :
    ((sort_flat_sids (sid_lut_bucket sids labs l) r).zip
      (List.replicate (sid_lut_bucket sids labs l).length l)).Perm
      (lab_pairs sids labs l) := by
  have hlen' := (sort_flat_bucket_perm hnd hlen hr l).length_eq
  rw [← hlen', zip_replicate_self]
  have hm := (sort_flat_bucket_perm hnd hlen hr l).map (fun x => (x, l))
  rw [bucket_map_pairs] at hm
  exact hm

/-- The zipped output rows of the reference case permute the index rows. -/
theorem out_pairs_perm_some [Inhabited α] {sids labs r : List α}
    (hnd : sids.Nodup) (hlen : sids.length = labs.length) (hr : r.Perm sids) :
    ((((min_sid_sorted_ind_list sids labs r).map
        (fun i => (sep_lab_sid_list2 sids labs r).getD i [])).flatten).zip
      (((min_sid_sorted_ind_list sids labs r).map
        (fun i => (sep_lab_list sids labs).getD i [])).flatten)).Perm
      (sids.zip labs) := by
  rw [zip_flatten_map _ _ _ (block_lengths hnd hlen hr)]
  have h1 : ((min_sid_sorted_ind_list sids labs r).flatMap
      (fun i => ((sep_lab_sid_list2 sids labs r).getD i []).zip
        ((sep_lab_list sids labs).getD i []))).Perm
      ((List.range (uniq_sorted labs).length).flatMap
        (fun i => ((sep_lab_sid_list2 sids labs r).getD i []).zip
          ((sep_lab_list sids labs).getD i []))) := by
    refine perm_flatMap_of_perm _ ?_
    have hp := idxs_perm_range hnd hlen hr
    rw [sep_lab_min_sid_list_eq, List.length_map] at hp
    exact hp
  refine h1.trans ?_
  rw [range_flatMap_blocks]
  exact (perm_flatMap_congr (fun l _ => blocks_perm hnd hlen hr l)).trans
    (flatMap_lab_pairs_perm sids labs)

/-- The two output components of the reference case have equal lengths. -/
theorem out_lengths_some [Inhabited α] {sids labs r : List α}
    (hnd : sids.Nodup) (hlen : sids.length = labs.length) (hr : r.Perm sids) :
    (((min_sid_sorted_ind_list sids labs r).map
        (fun i => (sep_lab_sid_list2 sids labs r).getD i [])).flatten).length =
      (((min_sid_sorted_ind_list sids labs r).map
        (fun i => (sep_lab_list sids labs).getD i [])).flatten).length := by
  rw [List.length_flatten, List.length_flatten, List.map_map, List.map_map]
  congr 1
  exact List.map_congr_left (fun i _ => block_lengths hnd hlen hr i)

/-- The zipped output rows of the no-reference case permute the index rows. -/
theorem out_pairs_perm_none (sids labs : List α) :
    (((sep_lab_sid_list sids labs).flatten).zip
      ((sep_lab_list sids labs).flatten)).Perm (sids.zip labs) := by
  unfold sep_lab_sid_list sep_lab_list
  rw [zip_flatten_map _ _ _ (fun l => (List.length_replicate _ _).symm)]
  have hflat : ((uniq_sorted labs).flatMap (fun l =>
      (sid_lut_bucket sids labs l).zip
        (List.replicate (sid_lut_bucket sids labs l).length l))) =
      (uniq_sorted labs).flatMap (lab_pairs sids labs) := by
    simp only [bucket_zip_replicate]
  rw [hflat]
  exact flatMap_lab_pairs_perm sids labs

/-- The two output components of the no-reference case have equal lengths. -/
theorem out_lengths_none (sids labs : List α) :
    ((sep_lab_sid_list sids labs).flatten).length =
      ((sep_lab_list sids labs).flatten).length := by
  unfold sep_lab_sid_list sep_lab_list
  rw [List.length_flatten, List.length_flatten, List.map_map, List.map_map]
  congr 1
  exact List.map_congr_left (fun l _ => (List.length_replicate _ _).symm)

/-- C2: for every validly constructed labeled index (duplicate-free sample
ids, labels aligned 1:1) and every call to `lab_sorted_sids` — with no
reference order, or with a reference order that is a permutation of all
sample ids (which is what passes the identifier validation together with
covering every id) — the three defensive assertions at the end of the call
hold (so they never fail): sorting the output sids equals sorting the input
sids, sorting the output labels equals sorting the input labels, and sorting
both (sid, lab) pairings by sample id yields identical pairings; in
particular the output sids are a permutation of the sample ids and the output
labels a permutation of the labels. -/
theorem lab_sorted_sids_postconditions [Inhabited α] (sids labs : List α)
    (ref : Option (List α)) (hnd : sids.Nodup)
    (hlen : sids.length = labs.length)
    (href : ∀ r, ref = some r → r.Perm sids) :
    sortAsc (lab_sorted_sids sids labs ref).1 = sortAsc sids ∧
    sortAsc (lab_sorted_sids sids labs ref).2 = sortAsc labs ∧
    sortPairsByFst ((lab_sorted_sids sids labs ref).1.zip
      (lab_sorted_sids sids labs ref).2) = sortPairsByFst (sids.zip labs) := by
  cases ref with
  | none =>
    rw [lab_sorted_sids_none_eq]
    exact assertions_of_perm sids labs _ _ hnd hlen (out_lengths_none sids labs)
      (out_pairs_perm_none sids labs)
  | some r =>
    have hr : r.Perm sids := href r rfl
    rw [lab_sorted_sids_some_eq]
    exact assertions_of_perm sids labs _ _ hnd hlen (out_lengths_some hnd hlen hr)
      (out_pairs_perm_some hnd hlen hr)

end C2Main

/-- C2 witness: the postconditions at the concrete index with sample ids
`[1, 2, 3]`, labels `[10, 20, 10]` and reference order `[3, 2, 1]` (a
permutation of the sample ids). -/
theorem lab_sorted_sids_postconditions_witness :
    sortAsc (lab_sorted_sids [1, 2, 3] [10, 20, 10] (some [3, 2, 1])).1 =
      sortAsc [1, 2, 3] ∧
    sortAsc (lab_sorted_sids [1, 2, 3] [10, 20, 10] (some [3, 2, 1])).2 =
      sortAsc [10, 20, 10] ∧
    sortPairsByFst ((lab_sorted_sids [1, 2, 3] [10, 20, 10] (some [3, 2, 1])).1.zip
      (lab_sorted_sids [1, 2, 3] [10, 20, 10] (some [3, 2, 1])).2) =
      sortPairsByFst ([1, 2, 3].zip [10, 20, 10]) :=
  lab_sorted_sids_postconditions [1, 2, 3] [10, 20, 10] (some [3, 2, 1])
    (by decide) (by decide)
    (fun r h => by
      injection h with h
      subst h
      decide)
